import Mathlib

/-!
Shallow embedding of the profile module of this repository
(`src/antarctic_plots/profile.py`), together with theorems settling the
frozen claims about it.

Modelling conventions:
* Python floats are modelled as real numbers `ℝ`; `np.sqrt` is `Real.sqrt`.
* A dataframe row of `create_profile` output is a triple `(x, y, dist) : ℝ × ℝ × ℝ`.
* `pandas` dataframes carrying arbitrary named columns (for `sample_grids` and
  `fill_nans`) are modelled as association lists of column name to column
  values; a missing value (`NaN` produced by no-data) is `Option.none` and the
  cell values are rationals, so that concrete frames can be evaluated by `decide`.
* Raising an exception (e.g. `IndexError` from `.iloc[0]` on an empty frame,
  or the `ValueError` that cubic interpolation raises for fewer than four
  points) is modelled by `Option.none` / by taking the `except` branch.
* `pandas.sort_values` is modelled by insertion sort on the `dist` column.
* The cubic interpolation performed by `DataFrame.interpolate("cubic")` is an
  external numerical routine; it is modelled by an arbitrary function
  `interp : ℝ → ℝ × ℝ` giving interpolated `(x, y)` at a new `dist` value, and
  the theorems about resampling hold for every such function.
-/

namespace AntarcticPlots

/-- The Euclidean distance `np.sqrt((x1 - x2)**2 + (y1 - y2)**2)` used
throughout `profile.py`. -/
noncomputable def euclid (x1 y1 x2 y2 : ℝ) : ℝ :=
  Real.sqrt ((x1 - x2) ^ 2 + (y1 - y2) ^ 2)

/-- A row of a profile dataframe: `(x, y, dist)`. -/
abbrev Row : Type := ℝ × ℝ × ℝ

/-- `rel_dist` from `profile.py`: lag the `x` and `y` columns by one row,
take the Euclidean distance between each row and its lag, and drop the rows
whose `rel_dist` is NaN (`dropna(subset=["rel_dist"])` removes exactly the
first row, whose lag is NaN).  Row `i ≥ 1` of the input survives, paired with
its distance to row `i - 1`. -/
noncomputable def rel_dist (df : List (ℝ × ℝ)) (reverse : Bool) : List (ℝ × ℝ × ℝ) :=
  let df1 := if reverse then df.reverse else df
  (df1.zip df1.tail).map fun pr => (pr.2.1, pr.2.2, euclid pr.2.1 pr.2.2 pr.1.1 pr.1.2)

/-- `Series.cumsum` on the `rel_dist` column, keeping the `x`, `y` coordinates
of each row and replacing the third component by the running sum. -/
noncomputable def cumsum (acc : ℝ) : List (ℝ × ℝ × ℝ) → List Row
  | [] => []
  | r :: rs => (r.1, r.2.1, acc + r.2.2) :: cumsum (acc + r.2.2) rs

/-- `cum_dist` from `profile.py`: `rel_dist` followed by
`df1["dist"] = df1.rel_dist.cumsum()`. -/
noncomputable def cum_dist (df : List (ℝ × ℝ)) (reverse : Bool) : List Row :=
  cumsum 0 (rel_dist df reverse)

/-- `coordinates.sort_values(by=["dist"])` in `create_profile`, modelled as a
stable sort on the `dist` column. -/
noncomputable def sort_values (rows : List Row) : List Row :=
  List.insertionSort (fun a b => a.2.2 ≤ b.2.2) rows

/-- `np.linspace(a, b, num)` on scalars (exact real arithmetic): element `i`
is `a + i * (b - a) / (num - 1)`; empty for `num = 0`, and `[a]` for
`num = 1` (the division by zero is multiplied by `i = 0`). -/
noncomputable def linspace1 (a b : ℝ) (num : ℕ) : List ℝ :=
  (List.range num).map fun i : ℕ => a + (i : ℝ) * (b - a) / ((num : ℝ) - 1)

/-- `np.linspace(start, stop, num)` on coordinate pairs, as used by the
`"points"` branch of `create_profile`. -/
noncomputable def linspace2 (start stop : ℝ × ℝ) (num : ℕ) : List (ℝ × ℝ) :=
  (List.range num).map fun i : ℕ =>
    (start.1 + (i : ℝ) * (stop.1 - start.1) / ((num : ℝ) - 1),
     start.2 + (i : ℝ) * (stop.2 - start.2) / ((num : ℝ) - 1))

/-- `Series.min()` of a column. -/
noncomputable def seriesMin (xs : List ℝ) : ℝ := xs.min?.getD 0

/-- `Series.max()` of a column. -/
noncomputable def seriesMax (xs : List ℝ) : ℝ := xs.max?.getD 0

/-- The `"points"` branch of `create_profile`: `num` defaults to `1000`,
the points are `np.linspace(start, stop, num)`, and
`dist = np.sqrt((x - x.iloc[0])**2 + (y - y.iloc[0])**2)` is the distance
from the first point (`iloc[0]` raises on an empty frame, modelled by
`none`); finally the rows are sorted by `dist`. -/
noncomputable def create_profile_points (start stop : ℝ × ℝ) (num : Option ℕ) :
    Option (List Row) :=
  let n := num.getD 1000
  let coordinates := linspace2 start stop n
  match coordinates with
  | [] => none
  | p0 :: _ =>
      some (sort_values (coordinates.map fun p => (p.1, p.2, euclid p.1 p.2 p0.1 p0.2)))

/-- One row of `df.reindex(df.index.union(dist_resampled)).interpolate("cubic")`
at index value `d`: if `d` was already an index value the original row is
kept, otherwise the cubic interpolation supplies `(x, y)` at `d`. -/
noncomputable def reindex_row (coords : List Row) (interp : ℝ → ℝ × ℝ) (d : ℝ) : Row :=
  match coords.find? fun r => decide (r.2.2 = d) with
  | some r => r
  | none => ((interp d).1, (interp d).2, d)

/-- `df.index.union(dist_resampled)`: the sorted deduplicated union of the
existing index values with the resampled ones. -/
noncomputable def index_union (dists rs : List ℝ) : List ℝ :=
  List.insertionSort (· ≤ ·) ((dists ++ rs.filter fun d => decide (d ∉ dists)).dedup)

/-- The `"polyline"` branch of `create_profile` (the `"shapefile"` branch is
identical once the vertices have been read): `cum_dist` of the vertices,
sorted by `dist`; when `num` is given, resampling onto
`np.linspace(dist.min(), dist.max(), num)` by reindexing on the union of
the old and new index values, cubic-interpolating, and keeping
`df1[df1.dist.isin(dist_resampled)]`.  The surrounding `except ValueError`
returns the unresampled `coords` exactly when the pipeline raises:
`df.reindex` raises on a duplicate `dist` index, and `interpolate("cubic")`
raises (scipy's cubic needs at least 4 points, per the source comment) only
when the union introduced new index values — when every resampled value
already exists in the index, there are no missing entries to fill, pandas
short-circuits without calling scipy, no error occurs, and the `isin`
filter simply truncates the rows. -/
noncomputable def create_profile_polyline (polyline : List (ℝ × ℝ)) (num : Option ℕ)
    (interp : ℝ → ℝ × ℝ) : List Row :=
  let coordinates := cum_dist polyline false
  let coords := sort_values coordinates
  match num with
  | none => coords
  | some m =>
      let dists := coords.map fun r => r.2.2
      if ¬ dists.Nodup then coords
      else
        let dist_resampled := linspace1 (seriesMin dists) (seriesMax dists) m
        if (∃ d ∈ dist_resampled, d ∉ dists) ∧ coords.length < 4 then coords
        else
          let df1 := (index_union dists dist_resampled).map (reindex_row coords interp)
          df1.filter fun r => decide (r.2.2 ∈ dist_resampled)

/-- `shorten` from `profile.py`: bounds default to the frame's own
`dist.max()` / `dist.min()`; rows are kept iff `dist < max_dist` and
`dist > min_dist` (both strict); the `dist` column is then recomputed as the
Euclidean distance to the first retained row (`.iloc[0]`, which raises
`IndexError` on an empty selection, modelled by `none`). -/
noncomputable def shorten (df : List Row) (max_dist min_dist : Option ℝ) :
    Option (List Row) :=
  let mx := max_dist.getD (seriesMax (df.map fun r => r.2.2))
  let mn := min_dist.getD (seriesMin (df.map fun r => r.2.2))
  let shortened := df.filter fun r => decide (r.2.2 < mx ∧ mn < r.2.2)
  match shortened with
  | [] => none
  | r0 :: _ =>
      some (shortened.map fun r => (r.1, r.2.1, euclid r.1 r.2.1 r0.1 r0.2.1))

/-- The list of consecutive segment lengths of a vertex list. -/
noncomputable def segLens (vs : List (ℝ × ℝ)) : List ℝ :=
  (vs.zip vs.tail).map fun pr => euclid pr.2.1 pr.2.2 pr.1.1 pr.1.2

/-- Cumulative arc length of a vertex list through segment `j` (the sum of
the first `j + 1` segment lengths). -/
noncomputable def cumLen (vs : List (ℝ × ℝ)) (j : ℕ) : ℝ :=
  ((segLens vs).take (j + 1)).sum

lemma euclid_nonneg (x1 y1 x2 y2 : ℝ) : 0 ≤ euclid x1 y1 x2 y2 :=
  Real.sqrt_nonneg _

lemma euclid_self (x y : ℝ) : euclid x y x y = 0 := by
  simp [euclid]

lemma cumsum_length (l : List (ℝ × ℝ × ℝ)) (acc : ℝ) :
    (cumsum acc l).length = l.length := by
  induction l generalizing acc with
  | nil => rfl
  | cons r rs ih => simp [cumsum, ih]

lemma cumsum_getD (l : List (ℝ × ℝ × ℝ)) (acc : ℝ) (j : ℕ) (hj : j < l.length) :
    (cumsum acc l).getD j (0, 0, 0) =
      ((l.getD j (0, 0, 0)).1, (l.getD j (0, 0, 0)).2.1,
        acc + ((l.map fun r => r.2.2).take (j + 1)).sum) := by
  induction l generalizing acc j with
  | nil => simp at hj
  | cons r rs ih =>
    cases j with
    | zero => simp [cumsum]
    | succ j =>
      have hj' : j < rs.length := by simpa using hj
      simp only [cumsum, List.getD_cons_succ, List.map_cons, List.take_succ_cons,
        List.sum_cons]
      rw [ih (acc + r.2.2) j hj']
      simp only [List.map_cons, List.take_succ_cons, List.sum_cons] at *
      ring_nf

lemma cumsum_dist_ge (l : List (ℝ × ℝ × ℝ)) (acc : ℝ)
    (h : ∀ r ∈ l, 0 ≤ r.2.2) : ∀ r ∈ cumsum acc l, acc ≤ r.2.2 := by
  induction l generalizing acc with
  | nil => intro r hr; simp [cumsum] at hr
  | cons a as ih =>
    intro r hr
    have ha : 0 ≤ a.2.2 := h a (by simp)
    rcases List.mem_cons.mp hr with h0 | h1
    · subst h0; simpa using ha
    · have := ih (acc + a.2.2) (fun r hr => h r (List.mem_cons_of_mem _ hr)) r h1
      linarith

lemma cumsum_sorted (l : List (ℝ × ℝ × ℝ)) (acc : ℝ)
    (h : ∀ r ∈ l, 0 ≤ r.2.2) :
    List.Sorted (fun a b : Row => a.2.2 ≤ b.2.2) (cumsum acc l) := by
  induction l generalizing acc with
  | nil => simp [cumsum]
  | cons a as ih =>
    have htail : ∀ r ∈ as, 0 ≤ r.2.2 := fun r hr => h r (List.mem_cons_of_mem _ hr)
    refine List.sorted_cons.mpr ⟨?_, ih (acc + a.2.2) htail⟩
    intro b hb
    simpa using cumsum_dist_ge as (acc + a.2.2) htail b hb

lemma rel_dist_nonneg (df : List (ℝ × ℝ)) (rev : Bool) :
    ∀ r ∈ rel_dist df rev, 0 ≤ r.2.2 := by
  intro r hr
  simp only [rel_dist, List.mem_map] at hr
  obtain ⟨pr, _, hpr⟩ := hr
  subst hpr
  exact euclid_nonneg _ _ _ _

lemma sort_values_cum_dist (vs : List (ℝ × ℝ)) (rev : Bool) :
    sort_values (cum_dist vs rev) = cum_dist vs rev :=
  List.Sorted.insertionSort_eq (cumsum_sorted _ _ (rel_dist_nonneg _ _))

lemma rel_dist_length (df : List (ℝ × ℝ)) (rev : Bool) :
    (rel_dist df rev).length = df.length - 1 := by
  cases rev <;>
    simp [rel_dist, List.length_zip, min_eq_right (Nat.sub_le _ _)]

lemma cum_dist_length (vs : List (ℝ × ℝ)) (rev : Bool) :
    (cum_dist vs rev).length = vs.length - 1 := by
  rw [cum_dist, cumsum_length, rel_dist_length]

lemma rel_dist_map_dist (vs : List (ℝ × ℝ)) :
    (rel_dist vs false).map (fun r => r.2.2) = segLens vs := by
  simp only [rel_dist, segLens, List.map_map, if_neg Bool.false_ne_true]
  rfl

lemma rel_dist_getD (vs : List (ℝ × ℝ)) (j : ℕ) (hj : j < vs.length - 1) :
    (rel_dist vs false).getD j (0, 0, 0) =
      ((vs.getD (j + 1) (0, 0)).1, (vs.getD (j + 1) (0, 0)).2,
        euclid (vs.getD (j + 1) (0, 0)).1 (vs.getD (j + 1) (0, 0)).2
          (vs.getD j (0, 0)).1 (vs.getD j (0, 0)).2) := by
  have hlen : j < (rel_dist vs false).length := by rw [rel_dist_length]; exact hj
  have hj1 : j + 1 < vs.length := by omega
  have hj0 : j < vs.length := by omega
  have hjz : j < (vs.zip vs.tail).length := by
    simp [List.length_zip, min_eq_right (Nat.sub_le _ _)]; omega
  have hjt : j < vs.tail.length := by simp [List.length_tail]; omega
  rw [List.getD_eq_getElem _ _ hlen]
  simp only [rel_dist, if_neg Bool.false_ne_true, List.getElem_map,
    List.getElem_zip]
  rw [List.getD_eq_getElem _ _ hj1, List.getD_eq_getElem _ _ hj0]
  congr 2 <;> simp [List.getElem_tail]

lemma cum_dist_getD (vs : List (ℝ × ℝ)) (j : ℕ) (hj : j < vs.length - 1) :
    (cum_dist vs false).getD j (0, 0, 0) =
      ((vs.getD (j + 1) (0, 0)).1, (vs.getD (j + 1) (0, 0)).2, cumLen vs j) := by
  have h1 : j < (rel_dist vs false).length := by rw [rel_dist_length]; exact hj
  rw [cum_dist, cumsum_getD _ _ _ h1, rel_dist_getD vs j hj, rel_dist_map_dist]
  simp [cumLen]

lemma create_profile_polyline_none (vs : List (ℝ × ℝ)) (interp : ℝ → ℝ × ℝ) :
    create_profile_polyline vs none interp = cum_dist vs false :=
  sort_values_cum_dist vs false

/-- Evaluation helper: the Euclidean distance is `c` whenever the sum of
squares is `c ^ 2` and `0 ≤ c`. -/
lemma euclid_eval {x1 y1 x2 y2 c : ℝ} (hc : 0 ≤ c)
    (h : (x1 - x2) ^ 2 + (y1 - y2) ^ 2 = c ^ 2) : euclid x1 y1 x2 y2 = c := by
  rw [euclid, h, Real.sqrt_sq hc]

/-- The vertex list `[(0,0), (3,4), (3,9)]` of the worked example in the
spec. -/
noncomputable def exampleVertices : List (ℝ × ℝ) := [(0, 0), (3, 4), (3, 9)]

lemma cum_dist_exampleVertices :
    cum_dist exampleVertices false = [(3, 4, 5), (3, 9, 10)] := by
  have e1 : euclid 3 4 0 0 = 5 := euclid_eval (by norm_num) (by norm_num)
  have e2 : euclid 3 9 3 4 = 5 := euclid_eval (by norm_num) (by norm_num)
  simp [exampleVertices, cum_dist, rel_dist, cumsum, e1, e2]
  norm_num

lemma sort_cum_exampleVertices :
    sort_values (cum_dist exampleVertices false) = [(3, 4, 5), (3, 9, 10)] := by
  rw [sort_values_cum_dist, cum_dist_exampleVertices]

/-- C1 is false on the code: for the spec's own example vertices
`[(0,0), (3,4), (3,9)]`, the vertex-path profile built by `create_profile`
has dist column `[5, 10]`, not the claimed `[0, 5, 10]` — `rel_dist` drops
the first vertex (its lagged distance is NaN), so the cumulative sum starts
at the first segment length rather than at `0`. -/
theorem C1_counterexample :
    (create_profile_polyline exampleVertices none (fun _ => (0, 0))).map
        (fun r => r.2.2) = [5, 10] ∧ ([5, 10] : List ℝ) ≠ [0, 5, 10] := by
  constructor
  · rw [create_profile_polyline_none, cum_dist_exampleVertices]
    norm_num
  · simp

/-- C1 (amended): a vertex-path profile built by `create_profile` from
vertices `v[0..n-1]` has `n - 1` rows; row `j` carries vertex `v[j+1]` and
`dist` equal to the cumulative Euclidean arc length through segment `j`,
i.e. `dist[0] = euclid(v[0], v[1])` (not `0`) and
`dist[j] = dist[j-1] + euclid(v[j], v[j+1])`; the first vertex is dropped. -/
theorem C1_amended (vs : List (ℝ × ℝ)) (interp : ℝ → ℝ × ℝ) :
    (create_profile_polyline vs none interp).length = vs.length - 1 ∧
    ∀ j, j < vs.length - 1 →
      (create_profile_polyline vs none interp).getD j (0, 0, 0) =
        ((vs.getD (j + 1) (0, 0)).1, (vs.getD (j + 1) (0, 0)).2, cumLen vs j) := by
  rw [create_profile_polyline_none]
  exact ⟨cum_dist_length vs false, fun j hj => cum_dist_getD vs j hj⟩

/-- Witness for `C1_amended` at the spec's example vertices. -/
theorem C1_amended_witness :
    0 < exampleVertices.length - 1 ∧
      (create_profile_polyline exampleVertices none (fun _ => (0, 0))).getD 0 (0, 0, 0) =
        ((exampleVertices.getD 1 (0, 0)).1, (exampleVertices.getD 1 (0, 0)).2,
          cumLen exampleVertices 0) :=
  ⟨by norm_num [exampleVertices],
    (C1_amended exampleVertices (fun _ => (0, 0))).2 0 (by norm_num [exampleVertices])⟩

lemma le_foldl_max (l : List ℝ) : ∀ a : ℝ, a ≤ l.foldl max a := by
  induction l with
  | nil => intro a; simp
  | cons b bs ih => intro a; exact le_trans (le_max_left a b) (ih (max a b))

lemma mem_le_foldl_max (l : List ℝ) : ∀ a x : ℝ, x ∈ a :: l → x ≤ l.foldl max a := by
  induction l with
  | nil =>
    intro a x hx
    simp only [List.mem_singleton] at hx
    simp [hx]
  | cons b bs ih =>
    intro a x hx
    rcases List.mem_cons.mp hx with rfl | hx1
    · exact le_trans (le_max_left x b) (le_foldl_max bs (max x b))
    rcases List.mem_cons.mp hx1 with rfl | hx2
    · exact le_trans (le_max_right a x) (le_foldl_max bs (max a x))
    · exact ih (max a b) x (List.mem_cons_of_mem _ hx2)

lemma foldl_max_mem (l : List ℝ) : ∀ a : ℝ, l.foldl max a ∈ a :: l := by
  induction l with
  | nil => intro a; simp
  | cons b bs ih =>
    intro a
    have hstep : (b :: bs).foldl max a = bs.foldl max (max a b) := rfl
    rw [hstep]
    rcases List.mem_cons.mp (ih (max a b)) with h | h
    · rcases max_choice a b with hab | hab <;> rw [h, hab] <;> simp
    · exact List.mem_cons_of_mem _ (List.mem_cons_of_mem _ h)

lemma foldl_min_le (l : List ℝ) : ∀ a : ℝ, l.foldl min a ≤ a := by
  induction l with
  | nil => intro a; simp
  | cons b bs ih => intro a; exact le_trans (ih (min a b)) (min_le_left a b)

lemma foldl_min_le_mem (l : List ℝ) : ∀ a x : ℝ, x ∈ a :: l → l.foldl min a ≤ x := by
  induction l with
  | nil =>
    intro a x hx
    simp only [List.mem_singleton] at hx
    simp [hx]
  | cons b bs ih =>
    intro a x hx
    rcases List.mem_cons.mp hx with rfl | hx1
    · exact le_trans (foldl_min_le bs (min x b)) (min_le_left x b)
    rcases List.mem_cons.mp hx1 with rfl | hx2
    · exact le_trans (foldl_min_le bs (min a x)) (min_le_right a x)
    · exact ih (min a b) x (List.mem_cons_of_mem _ hx2)

lemma foldl_min_mem (l : List ℝ) : ∀ a : ℝ, l.foldl min a ∈ a :: l := by
  induction l with
  | nil => intro a; simp
  | cons b bs ih =>
    intro a
    have hstep : (b :: bs).foldl min a = bs.foldl min (min a b) := rfl
    rw [hstep]
    rcases List.mem_cons.mp (ih (min a b)) with h | h
    · rcases min_choice a b with hab | hab <;> rw [h, hab] <;> simp
    · exact List.mem_cons_of_mem _ (List.mem_cons_of_mem _ h)

lemma seriesMax_mem (xs : List ℝ) (hx : xs ≠ []) : seriesMax xs ∈ xs := by
  cases xs with
  | nil => cases hx rfl
  | cons a l => simpa [seriesMax, List.max?] using foldl_max_mem l a

lemma le_seriesMax (xs : List ℝ) (x : ℝ) (hx : x ∈ xs) : x ≤ seriesMax xs := by
  cases xs with
  | nil => simp at hx
  | cons a l => simpa [seriesMax, List.max?] using mem_le_foldl_max l a x hx

lemma seriesMin_mem (xs : List ℝ) (hx : xs ≠ []) : seriesMin xs ∈ xs := by
  cases xs with
  | nil => cases hx rfl
  | cons a l => simpa [seriesMin, List.min?] using foldl_min_mem l a

lemma seriesMin_le (xs : List ℝ) (x : ℝ) (hx : x ∈ xs) : seriesMin xs ≤ x := by
  cases xs with
  | nil => simp at hx
  | cons a l => simpa [seriesMin, List.min?] using foldl_min_le_mem l a x hx

lemma shorten_some_of_filter_cons (df : List Row) (mx mn : ℝ) (r0 : Row)
    (rest : List Row)
    (h : df.filter (fun r => decide (r.2.2 < mx ∧ mn < r.2.2)) = r0 :: rest) :
    shorten df (some mx) (some mn) =
      some ((r0 :: rest).map fun r => (r.1, r.2.1, euclid r.1 r.2.1 r0.1 r0.2.1)) := by
  simp only [shorten, Option.getD_some]
  rw [h]

lemma shorten_some_of_filter_nil (df : List Row) (mx mn : ℝ)
    (h : df.filter (fun r => decide (r.2.2 < mx ∧ mn < r.2.2)) = []) :
    shorten df (some mx) (some mn) = none := by
  simp only [shorten, Option.getD_some]
  rw [h]

lemma shorten_none_eq (df : List Row) :
    shorten df none none =
      shorten df (some (seriesMax (df.map fun r => r.2.2)))
        (some (seriesMin (df.map fun r => r.2.2))) := rfl

/-- The profile `[(0,0,0), (3,4,5), (3,9,10)]`: the cumulative-distance
profile of the spec's example path, used as a concrete input. -/
noncomputable def exampleProfile : List Row := [(0, 0, 0), (3, 4, 5), (3, 9, 10)]

lemma shorten_exampleProfile_default :
    shorten exampleProfile none none = some [((3 : ℝ), (4 : ℝ), (0 : ℝ))] := by
  rw [shorten_none_eq]
  have hmx : seriesMax (exampleProfile.map fun r => r.2.2) = 10 := by
    norm_num [exampleProfile, seriesMax, List.max?, max_def]
  have hmn : seriesMin (exampleProfile.map fun r => r.2.2) = 0 := by
    norm_num [exampleProfile, seriesMin, List.min?, min_def]
  rw [hmx, hmn]
  have hsel : exampleProfile.filter (fun r => decide (r.2.2 < 10 ∧ 0 < r.2.2)) =
      [((3 : ℝ), (4 : ℝ), (5 : ℝ))] := by
    simp only [exampleProfile, List.filter_cons, decide_eq_true_eq]
    norm_num
  rw [shorten_some_of_filter_cons _ _ _ _ _ hsel]
  simp [euclid_self]

/-- C2 is false on the code: with both bounds omitted, `shorten` is not a
no-op.  The bounds do default to the profile's own min/max `dist`, but the
filter `(df.dist < max_dist) & (df.dist > min_dist)` is strict, so the rows
attaining the min and max are dropped: on the profile with dist `[0, 5, 10]`
the result is the single recomputed row `(3, 4, 0)`, not the input. -/
theorem C2_counterexample : shorten exampleProfile none none ≠ some exampleProfile := by
  rw [shorten_exampleProfile_default]
  intro h
  simp [exampleProfile] at h

/-- C2 (amended): with both bounds omitted they default to the profile's own
min and max `dist` (the call equals `shorten` with those explicit bounds),
but because the inequalities are strict this is not a no-op: whenever the
call returns a frame at all, that frame has strictly fewer rows than the
input (the rows attaining the extremal `dist` are dropped). -/
theorem C2_amended (df : List Row) (out : List Row)
    (h : shorten df none none = some out) :
    shorten df none none =
      shorten df (some (seriesMax (df.map fun r => r.2.2)))
        (some (seriesMin (df.map fun r => r.2.2))) ∧
    out.length < df.length := by
  refine ⟨shorten_none_eq df, ?_⟩
  rw [shorten_none_eq df] at h
  set mx := seriesMax (df.map fun r => r.2.2) with hmx
  set mn := seriesMin (df.map fun r => r.2.2) with hmn
  cases hsel : df.filter (fun r => decide (r.2.2 < mx ∧ mn < r.2.2)) with
  | nil => rw [shorten_some_of_filter_nil _ _ _ hsel] at h; cases h
  | cons r0 rest =>
    rw [shorten_some_of_filter_cons _ _ _ _ _ hsel] at h
    have hout : out.length = (r0 :: rest).length := by
      have := Option.some.inj h
      rw [← this, List.length_map]
    have hr0df : r0 ∈ df := by
      have : r0 ∈ df.filter (fun r => decide (r.2.2 < mx ∧ mn < r.2.2)) := by
        rw [hsel]; simp
      exact List.mem_of_mem_filter this
    have hdfne : df ≠ [] := by
      intro hnil
      rw [hnil] at hr0df
      simp at hr0df
    have hmaxmem : mx ∈ df.map fun r => r.2.2 := by
      apply seriesMax_mem
      simp [hdfne]
    obtain ⟨rmax, hrmaxdf, hrmaxval⟩ := List.mem_map.mp hmaxmem
    have hfail : ¬ (fun r : Row => decide (r.2.2 < mx ∧ mn < r.2.2)) rmax = true := by
      simp only [decide_eq_true_eq, not_and]
      intro hlt
      rw [hrmaxval] at hlt
      exact absurd hlt (lt_irrefl mx)
    rw [hout, ← hsel]
    have hle : (df.filter (fun r => decide (r.2.2 < mx ∧ mn < r.2.2))).length ≤ df.length :=
      List.length_filter_le _ _
    rcases lt_or_eq_of_le hle with hlt | heq
    · exact hlt
    · exfalso
      have := (List.filter_length_eq_length).mp heq
      exact hfail (this rmax hrmaxdf)

/-- Witness for `C2_amended` at the example profile. -/
theorem C2_amended_witness :
    shorten exampleProfile none none = some [((3 : ℝ), (4 : ℝ), (0 : ℝ))] ∧
      (shorten exampleProfile none none =
        shorten exampleProfile (some (seriesMax (exampleProfile.map fun r => r.2.2)))
          (some (seriesMin (exampleProfile.map fun r => r.2.2))) ∧
      ([((3 : ℝ), (4 : ℝ), (0 : ℝ))] : List Row).length < exampleProfile.length) :=
  ⟨shorten_exampleProfile_default,
    C2_amended exampleProfile _ shorten_exampleProfile_default⟩

/-- C3: for supplied bounds, `shorten` keeps exactly the rows whose original
`dist` lies strictly between `min_dist` and `max_dist`, and recomputes the
`dist` column as the Euclidean distance from each retained point to the
first retained point, so the new `dist[0]` is `0`. -/
theorem C3_shorten_strict_filter (df : List Row) (mx mn : ℝ) (r0 : Row)
    (rest : List Row)
    (hsel : df.filter (fun r => decide (r.2.2 < mx ∧ mn < r.2.2)) = r0 :: rest) :
    shorten df (some mx) (some mn) =
      some ((r0 :: rest).map fun r => (r.1, r.2.1, euclid r.1 r.2.1 r0.1 r0.2.1)) ∧
    (∀ r ∈ r0 :: rest, r ∈ df ∧ mn < r.2.2 ∧ r.2.2 < mx) ∧
    ∀ out, shorten df (some mx) (some mn) = some out →
      out.getD 0 (0, 0, 0) = (r0.1, r0.2.1, 0) := by
  refine ⟨shorten_some_of_filter_cons df mx mn r0 rest hsel, ?_, ?_⟩
  · intro r hr
    rw [← hsel] at hr
    have h1 := List.mem_of_mem_filter hr
    have h2 := List.of_mem_filter hr
    rw [decide_eq_true_eq] at h2
    exact ⟨h1, h2.2, h2.1⟩
  · intro out hout
    rw [shorten_some_of_filter_cons df mx mn r0 rest hsel] at hout
    have := Option.some.inj hout
    rw [← this]
    simp [euclid_self]

/-- Witness for `C3_shorten_strict_filter` on the example profile with
bounds `(1, 7)`: only the middle row survives and its new dist is `0`. -/
theorem C3_witness :
    exampleProfile.filter (fun r => decide (r.2.2 < 7 ∧ 1 < r.2.2)) =
        [((3 : ℝ), (4 : ℝ), (5 : ℝ))] ∧
      (shorten exampleProfile (some 7) (some 1) =
        some (([((3 : ℝ), (4 : ℝ), (5 : ℝ))] : List Row).map fun r =>
          (r.1, r.2.1, euclid r.1 r.2.1 3 4)) ∧
      (∀ r ∈ ([((3 : ℝ), (4 : ℝ), (5 : ℝ))] : List Row),
        r ∈ exampleProfile ∧ 1 < r.2.2 ∧ r.2.2 < 7) ∧
      ∀ out, shorten exampleProfile (some 7) (some 1) = some out →
        out.getD 0 (0, 0, 0) = (3, 4, 0)) := by
  have hsel : exampleProfile.filter (fun r => decide (r.2.2 < 7 ∧ 1 < r.2.2)) =
      [((3 : ℝ), (4 : ℝ), (5 : ℝ))] := by
    simp only [exampleProfile, List.filter_cons, decide_eq_true_eq]
    norm_num
  exact ⟨hsel,
    C3_shorten_strict_filter exampleProfile 7 1 ((3 : ℝ), (4 : ℝ), (5 : ℝ)) [] hsel⟩

/-- C10: when no row satisfies the strict bounds, the selection is empty and
recomputing `dist` accesses `.iloc[0]` of an empty frame: the call raises
(`none` in the model) rather than returning an empty profile. -/
theorem C10_shorten_empty (df : List Row) (mx mn : ℝ)
    (h : df.filter (fun r => decide (r.2.2 < mx ∧ mn < r.2.2)) = []) :
    shorten df (some mx) (some mn) = none :=
  shorten_some_of_filter_nil df mx mn h

/-- Witness for `C10_shorten_empty`: bounds `(20, 30)` select no row of the
example profile and the call fails. -/
theorem C10_witness :
    exampleProfile.filter (fun r => decide (r.2.2 < 30 ∧ 20 < r.2.2)) = [] ∧
      shorten exampleProfile (some 30) (some 20) = none := by
  have hsel : exampleProfile.filter (fun r => decide (r.2.2 < 30 ∧ 20 < r.2.2)) = [] := by
    simp only [exampleProfile, List.filter_cons, decide_eq_true_eq]
    norm_num
  exact ⟨hsel, C10_shorten_empty exampleProfile 30 20 hsel⟩

/-- Row `j` of the `"points"` profile: the linearly interpolated point
between `start` and `stop`, with `dist` the Euclidean distance from it to
the first point (`start`), exactly as the `"points"` branch computes it. -/
noncomputable def pointsRow (start stop : ℝ × ℝ) (N : ℕ) (j : ℕ) : Row :=
  (start.1 + j * (stop.1 - start.1) / ((N : ℝ) - 1),
   start.2 + j * (stop.2 - start.2) / ((N : ℝ) - 1),
   euclid (start.1 + j * (stop.1 - start.1) / ((N : ℝ) - 1))
     (start.2 + j * (stop.2 - start.2) / ((N : ℝ) - 1)) start.1 start.2)

lemma euclid_translate (x y u v : ℝ) : euclid (x + u) (y + v) x y =
    Real.sqrt (u ^ 2 + v ^ 2) := by
  rw [euclid]
  congr 1
  ring

lemma range_map_getD {α : Type} (F : ℕ → α) (N j : ℕ) (hj : j < N) (d : α) :
    ((List.range N).map F).getD j d = F j := by
  have hl : j < ((List.range N).map F).length := by simp [hj]
  rw [List.getD_eq_getElem _ _ hl]
  simp

lemma pointsRow_dist (start stop : ℝ × ℝ) (N j : ℕ) (hN : 1 ≤ N) :
    (pointsRow start stop N j).2.2 =
      ((j : ℝ) / ((N : ℝ) - 1)) *
        Real.sqrt ((stop.1 - start.1) ^ 2 + (stop.2 - start.2) ^ 2) := by
  have hc : (0 : ℝ) ≤ (j : ℝ) / ((N : ℝ) - 1) := by
    apply div_nonneg (by positivity)
    have h1 : (1 : ℝ) ≤ (N : ℝ) := by exact_mod_cast hN
    linarith
  simp only [pointsRow]
  rw [show start.1 + (j : ℝ) * (stop.1 - start.1) / ((N : ℝ) - 1) =
        start.1 + ((j : ℝ) / ((N : ℝ) - 1)) * (stop.1 - start.1) by ring,
      show start.2 + (j : ℝ) * (stop.2 - start.2) / ((N : ℝ) - 1) =
        start.2 + ((j : ℝ) / ((N : ℝ) - 1)) * (stop.2 - start.2) by ring,
      euclid_translate,
      show ((j : ℝ) / ((N : ℝ) - 1) * (stop.1 - start.1)) ^ 2 +
          ((j : ℝ) / ((N : ℝ) - 1) * (stop.2 - start.2)) ^ 2 =
          ((j : ℝ) / ((N : ℝ) - 1)) ^ 2 *
            ((stop.1 - start.1) ^ 2 + (stop.2 - start.2) ^ 2) by ring,
      Real.sqrt_mul (sq_nonneg _), Real.sqrt_sq hc]

lemma points_map_sorted (start stop : ℝ × ℝ) (N : ℕ) :
    List.Sorted (fun a b : Row => a.2.2 ≤ b.2.2)
      ((List.range N).map (pointsRow start stop N)) := by
  rw [List.Sorted, List.pairwise_map]
  refine List.Pairwise.imp_of_mem ?_ (List.pairwise_lt_range N)
  intro i j hi hj hij
  rw [List.mem_range] at hi hj
  have hN : 1 ≤ N := by omega
  rw [pointsRow_dist start stop N i hN, pointsRow_dist start stop N j hN]
  apply mul_le_mul_of_nonneg_right _ (Real.sqrt_nonneg _)
  have hden : (0 : ℝ) ≤ (N : ℝ) - 1 := by
    have h1 : (1 : ℝ) ≤ (N : ℝ) := by exact_mod_cast hN
    linarith
  rcases eq_or_lt_of_le hden with hz | hpos
  · rw [← hz]
    simp
  · exact (div_le_div_right hpos).mpr (by exact_mod_cast hij.le)

lemma linspace2_length (start stop : ℝ × ℝ) (N : ℕ) :
    (linspace2 start stop N).length = N := by
  rw [linspace2, List.length_map, List.length_range]

lemma linspace2_getD (start stop : ℝ × ℝ) (N j : ℕ) (hj : j < N) :
    (linspace2 start stop N).getD j (0, 0) =
      (start.1 + j * (stop.1 - start.1) / ((N : ℝ) - 1),
       start.2 + j * (stop.2 - start.2) / ((N : ℝ) - 1)) := by
  have hl : j < (linspace2 start stop N).length := by
    rw [linspace2_length]; exact hj
  rw [List.getD_eq_getElem _ _ hl]
  simp only [linspace2, List.getElem_map, List.getElem_range]

lemma create_profile_points_eq (start stop : ℝ × ℝ) (N : ℕ) (hN : 1 ≤ N) :
    create_profile_points start stop (some N) =
      some ((List.range N).map (pointsRow start stop N)) := by
  have hlen : (linspace2 start stop N).length = N := linspace2_length start stop N
  simp only [create_profile_points, Option.getD_some]
  cases h : linspace2 start stop N with
  | nil => rw [h] at hlen; simp at hlen; omega
  | cons p0 rest =>
    have hp0 : p0 = (start.1, start.2) := by
      have h0 := linspace2_getD start stop N 0 (by omega)
      rw [h] at h0
      simpa using h0
    subst hp0
    have hmap : (linspace2 start stop N).map
        (fun p => (p.1, p.2, euclid p.1 p.2 start.1 start.2)) =
        (List.range N).map (pointsRow start stop N) := by
      simp only [linspace2, List.map_map, pointsRow]
      rfl
    show some (sort_values (((start.1, start.2) :: rest).map
        (fun p => (p.1, p.2, euclid p.1 p.2 start.1 start.2)))) =
      some ((List.range N).map (pointsRow start stop N))
    rw [← h, hmap]
    exact congrArg some (List.Sorted.insertionSort_eq (points_map_sorted start stop N))

/-- C4: `"points"` mode with `num = N` (default `1000` when omitted) yields
exactly `N` rows; row `j` is the linear interpolation
`start + j/(N-1) · (stop - start)` (so the rows are evenly spaced and
collinear between the endpoints) with `dist` the Euclidean distance from
row `j` to row `0` (from-first-point, not path-integrated); `dist[0] = 0`,
and for distinct endpoints `dist` is strictly increasing. -/
theorem C4_points_mode (start stop : ℝ × ℝ) (N : ℕ) (hN : 1 ≤ N)
    (hne : start ≠ stop) :
    create_profile_points start stop (some N) =
      some ((List.range N).map (pointsRow start stop N)) ∧
    ((List.range N).map (pointsRow start stop N)).length = N ∧
    ((List.range N).map (pointsRow start stop N)).getD 0 (0, 0, 0) =
      (start.1, start.2, 0) ∧
    (∀ i j, i < j → j < N →
      (pointsRow start stop N i).2.2 < (pointsRow start stop N j).2.2) ∧
    create_profile_points start stop none = create_profile_points start stop (some 1000) := by
  refine ⟨create_profile_points_eq start stop N hN, by simp, ?_, ?_,
    by simp only [create_profile_points, Option.getD_none, Option.getD_some]⟩
  · rw [range_map_getD _ N 0 (by omega)]
    simp [pointsRow, euclid_self]
  · intro i j hij hjN
    have hN2 : 2 ≤ N := by omega
    rw [pointsRow_dist start stop N i hN, pointsRow_dist start stop N j hN]
    have hL : 0 < Real.sqrt ((stop.1 - start.1) ^ 2 + (stop.2 - start.2) ^ 2) := by
      apply Real.sqrt_pos.mpr
      have hd : stop.1 - start.1 ≠ 0 ∨ stop.2 - start.2 ≠ 0 := by
        by_contra hcon
        push_neg at hcon
        exact hne (Prod.ext_iff.mpr
          ⟨(sub_eq_zero.mp hcon.1).symm, (sub_eq_zero.mp hcon.2).symm⟩)
      rcases hd with hd | hd
      · have h2 : 0 < (stop.1 - start.1) ^ 2 := by positivity
        nlinarith [sq_nonneg (stop.2 - start.2)]
      · have h2 : 0 < (stop.2 - start.2) ^ 2 := by positivity
        nlinarith [sq_nonneg (stop.1 - start.1)]
    have hden : (0 : ℝ) < (N : ℝ) - 1 := by
      have h2 : (2 : ℝ) ≤ (N : ℝ) := by exact_mod_cast hN2
      linarith
    exact mul_lt_mul_of_pos_right
      ((div_lt_div_right hden).mpr (by exact_mod_cast hij)) hL

/-- Witness for `C4_points_mode`: endpoints `(0,0)`, `(10,0)` with `num = 3`
give exactly the rows `(0,0,0)`, `(5,0,5)`, `(10,0,10)` of the spec's
example. -/
theorem C4_witness :
    (1 ≤ 3 ∧ ((0 : ℝ), (0 : ℝ)) ≠ ((10 : ℝ), (0 : ℝ))) ∧
    (List.range 3).map (pointsRow (0, 0) (10, 0) 3) =
      [((0 : ℝ), (0 : ℝ), (0 : ℝ)), (5, 0, 5), (10, 0, 10)] ∧
    (create_profile_points (0, 0) (10, 0) (some 3) =
      some ((List.range 3).map (pointsRow (0, 0) (10, 0) 3)) ∧
    ((List.range 3).map (pointsRow (0, 0) (10, 0) 3)).length = 3 ∧
    ((List.range 3).map (pointsRow (0, 0) (10, 0) 3)).getD 0 (0, 0, 0) =
      ((((0 : ℝ), (0 : ℝ)) : ℝ × ℝ).1, (((0 : ℝ), (0 : ℝ)) : ℝ × ℝ).2, 0) ∧
    (∀ i j, i < j → j < 3 →
      (pointsRow (0, 0) (10, 0) 3 i).2.2 < (pointsRow (0, 0) (10, 0) 3 j).2.2) ∧
    create_profile_points (0, 0) (10, 0) none =
      create_profile_points (0, 0) (10, 0) (some 1000)) := by
  have hne : ((0 : ℝ), (0 : ℝ)) ≠ ((10 : ℝ), (0 : ℝ)) := by
    intro h
    rw [Prod.ext_iff] at h
    norm_num at h
  refine ⟨⟨by norm_num, hne⟩, ?_, C4_points_mode (0, 0) (10, 0) 3 (by norm_num) hne⟩
  have h0 : euclid (0 : ℝ) (0 : ℝ) 0 0 = 0 := euclid_self 0 0
  have h5 : euclid (5 : ℝ) (0 : ℝ) 0 0 = 5 := euclid_eval (by norm_num) (by norm_num)
  have h10 : euclid (10 : ℝ) (0 : ℝ) 0 0 = 10 := euclid_eval (by norm_num) (by norm_num)
  rw [show List.range 3 = [0, 1, 2] by rfl]
  simp only [List.map_cons, List.map_nil, pointsRow]
  norm_num [h0, h5, h10]

lemma sort_values_length (rows : List Row) : (sort_values rows).length = rows.length :=
  List.length_insertionSort _ rows

/-- C6 (amended): the identity fallback happens exactly when the resampling
pipeline raises `ValueError`.  In particular, when the path has fewer than
4 input points and some resampled distance value is new — so the reindex
introduces missing entries and the cubic interpolation, which needs at
least 4 points, raises — `create_profile` does not fail: it returns the
original un-resampled path, the same rows as the `num = None` call.  When
every resampled value already exists in the dist index, nothing needs
interpolating, no error is raised, and the output is instead the `isin`
truncation of the path (see the counterexample). -/
theorem C6_resample_fallback (vs : List (ℝ × ℝ)) (M : ℕ) (interp : ℝ → ℝ × ℝ)
    (h : vs.length < 4)
    (hnew : ∃ d ∈ linspace1
        (seriesMin ((sort_values (cum_dist vs false)).map fun r => r.2.2))
        (seriesMax ((sort_values (cum_dist vs false)).map fun r => r.2.2)) M,
      d ∉ ((sort_values (cum_dist vs false)).map fun r => r.2.2)) :
    create_profile_polyline vs (some M) interp =
      create_profile_polyline vs none interp := by
  have hlen : (sort_values (cum_dist vs false)).length < 4 := by
    rw [sort_values_length, cum_dist_length]
    omega
  simp only [create_profile_polyline]
  by_cases hnd : ((sort_values (cum_dist vs false)).map fun r => r.2.2).Nodup
  · rw [if_neg (not_not_intro hnd), if_pos ⟨hnew, hlen⟩]
  · rw [if_pos hnd]

/-- Witness for `C6_resample_fallback`: the 3-vertex example path with
`num = 3`; the middle resampled value `7.5` does not occur among the dists
`[5, 10]`, so interpolation would raise and the unresampled rows are
returned. -/
theorem C6_witness :
    (exampleVertices.length < 4 ∧
      ∃ d ∈ linspace1
          (seriesMin ((sort_values (cum_dist exampleVertices false)).map fun r => r.2.2))
          (seriesMax ((sort_values (cum_dist exampleVertices false)).map fun r => r.2.2)) 3,
        d ∉ ((sort_values (cum_dist exampleVertices false)).map fun r => r.2.2)) ∧
      create_profile_polyline exampleVertices (some 3) (fun _ => (0, 0)) =
        create_profile_polyline exampleVertices none (fun _ => (0, 0)) := by
  have hnew : ∃ d ∈ linspace1
      (seriesMin ((sort_values (cum_dist exampleVertices false)).map fun r => r.2.2))
      (seriesMax ((sort_values (cum_dist exampleVertices false)).map fun r => r.2.2)) 3,
      d ∉ ((sort_values (cum_dist exampleVertices false)).map fun r => r.2.2) := by
    simp only [sort_cum_exampleVertices, List.map_cons, List.map_nil]
    have hmin : seriesMin ([5, 10] : List ℝ) = 5 := by
      norm_num [seriesMin, List.min?, min_def]
    have hmax : seriesMax ([5, 10] : List ℝ) = 10 := by
      norm_num [seriesMax, List.max?, max_def]
    rw [hmin, hmax]
    refine ⟨15 / 2, ?_, ?_⟩
    · rw [linspace1]
      refine List.mem_map.mpr ⟨1, List.mem_range.mpr (by omega), ?_⟩
      norm_num
    · norm_num
  exact ⟨⟨by norm_num [exampleVertices], hnew⟩,
    C6_resample_fallback exampleVertices 3 (fun _ => (0, 0))
      (by norm_num [exampleVertices]) hnew⟩

lemma euclid_pos {x1 y1 x2 y2 : ℝ} (h : ((x1, y1) : ℝ × ℝ) ≠ (x2, y2)) :
    0 < euclid x1 y1 x2 y2 := by
  apply Real.sqrt_pos.mpr
  have hd : x1 - x2 ≠ 0 ∨ y1 - y2 ≠ 0 := by
    by_contra hcon
    push_neg at hcon
    exact h (Prod.ext_iff.mpr ⟨sub_eq_zero.mp hcon.1, sub_eq_zero.mp hcon.2⟩)
  rcases hd with hd | hd
  · have h2 : 0 < (x1 - x2) ^ 2 := by positivity
    nlinarith [sq_nonneg (y1 - y2)]
  · have h2 : 0 < (y1 - y2) ^ 2 := by positivity
    nlinarith [sq_nonneg (x1 - x2)]

lemma linspace1_length (a b : ℝ) (M : ℕ) : (linspace1 a b M).length = M := by
  rw [linspace1, List.length_map, List.length_range]

lemma linspace1_first (a b : ℝ) (M : ℕ) (hM : 1 ≤ M) : a ∈ linspace1 a b M := by
  rw [linspace1]
  exact List.mem_map.mpr ⟨0, List.mem_range.mpr (by omega), by norm_num⟩

lemma linspace1_last (a b : ℝ) (M : ℕ) (hM : 2 ≤ M) : b ∈ linspace1 a b M := by
  rw [linspace1]
  refine List.mem_map.mpr ⟨M - 1, List.mem_range.mpr (by omega), ?_⟩
  have h1 : (1 : ℕ) ≤ M := by omega
  have hcast : ((M - 1 : ℕ) : ℝ) = (M : ℝ) - 1 := by
    push_cast [h1]
    ring
  have hne : (M : ℝ) - 1 ≠ 0 := by
    have h2 : (2 : ℝ) ≤ (M : ℝ) := by exact_mod_cast hM
    intro hc
    rw [sub_eq_zero] at hc
    rw [hc] at h2
    norm_num at h2
  rw [hcast]
  field_simp

lemma linspace1_bounds (a b : ℝ) (M : ℕ) (hab : a ≤ b) (d : ℝ)
    (hd : d ∈ linspace1 a b M) : a ≤ d ∧ d ≤ b := by
  rw [linspace1] at hd
  obtain ⟨i, hi, hdi⟩ := List.mem_map.mp hd
  rw [List.mem_range] at hi
  subst hdi
  have hM1 : 1 ≤ M := by omega
  have hden : (0 : ℝ) ≤ (M : ℝ) - 1 := by
    have h1 : (1 : ℝ) ≤ (M : ℝ) := by exact_mod_cast hM1
    linarith
  constructor
  · have hnn : (0 : ℝ) ≤ (i : ℝ) * (b - a) / ((M : ℝ) - 1) :=
      div_nonneg (mul_nonneg (by positivity) (by linarith)) hden
    linarith
  · rcases eq_or_lt_of_le hden with hz | hpos
    · rw [← hz]
      norm_num
      linarith
    · have hiM : (i : ℝ) ≤ (M : ℝ) - 1 := by
        have hi1 : (i : ℝ) + 1 ≤ (M : ℝ) := by exact_mod_cast hi
        linarith
      have hstep : (i : ℝ) * (b - a) / ((M : ℝ) - 1) ≤
          ((M : ℝ) - 1) * (b - a) / ((M : ℝ) - 1) :=
        (div_le_div_iff_of_pos_right hpos).mpr
          (mul_le_mul_of_nonneg_right hiM (by linarith))
      have hcancel : ((M : ℝ) - 1) * (b - a) / ((M : ℝ) - 1) = b - a := by
        field_simp
      rw [hcancel] at hstep
      linarith

lemma linspace1_sorted_lt (a b : ℝ) (M : ℕ) (hab : a < b) :
    List.Sorted (· < ·) (linspace1 a b M) := by
  rw [linspace1, List.Sorted, List.pairwise_map]
  refine List.Pairwise.imp_of_mem ?_ (List.pairwise_lt_range M)
  intro i j hi hj hij
  rw [List.mem_range] at hi hj
  have hM2 : 2 ≤ M := by omega
  have hpos : (0 : ℝ) < (M : ℝ) - 1 := by
    have h2 : (2 : ℝ) ≤ (M : ℝ) := by exact_mod_cast hM2
    linarith
  have hlt : (i : ℝ) < (j : ℝ) := by exact_mod_cast hij
  have hstep : (i : ℝ) * (b - a) / ((M : ℝ) - 1) < (j : ℝ) * (b - a) / ((M : ℝ) - 1) :=
    (div_lt_div_iff_of_pos_right hpos).mpr
      (mul_lt_mul_of_pos_right hlt (by linarith))
  linarith

lemma mem_index_union (dists rs : List ℝ) (d : ℝ) :
    d ∈ index_union dists rs ↔ d ∈ dists ∨ d ∈ rs := by
  rw [index_union, (List.perm_insertionSort _ _).mem_iff, List.mem_dedup,
    List.mem_append, List.mem_filter]
  constructor
  · rintro (h | ⟨h, _⟩)
    · exact Or.inl h
    · exact Or.inr h
  · rintro (h | h)
    · exact Or.inl h
    · by_cases hd : d ∈ dists
      · exact Or.inl hd
      · exact Or.inr ⟨h, decide_eq_true hd⟩

lemma index_union_sorted (dists rs : List ℝ) :
    List.Sorted (· ≤ ·) (index_union dists rs) :=
  List.sorted_insertionSort _ _

lemma index_union_nodup (dists rs : List ℝ) : (index_union dists rs).Nodup :=
  ((List.perm_insertionSort _ _).nodup_iff).mpr (List.nodup_dedup _)

lemma reindex_row_dist (coords : List Row) (interp : ℝ → ℝ × ℝ) (d : ℝ) :
    (reindex_row coords interp d).2.2 = d := by
  cases hf : coords.find? (fun r => decide (r.2.2 = d)) with
  | none => simp only [reindex_row, hf]
  | some r =>
    have hr := List.find?_some hf
    rw [decide_eq_true_eq] at hr
    simp only [reindex_row, hf, hr]

lemma filter_map_dist (l : List ℝ) (coords : List Row) (interp : ℝ → ℝ × ℝ)
    (rs : List ℝ) :
    (((l.map (reindex_row coords interp)).filter
        (fun r => decide (r.2.2 ∈ rs))).map fun r => r.2.2) =
      l.filter (fun d => decide (d ∈ rs)) := by
  induction l with
  | nil => rfl
  | cons d l ih =>
    simp only [List.map_cons, List.filter_cons, reindex_row_dist]
    by_cases hd : d ∈ rs
    · simp only [decide_eq_true hd, if_true, List.map_cons, reindex_row_dist, ih]
    · rw [if_neg (by simpa using hd), if_neg (by simpa using hd)]
      exact ih

lemma filter_eq_of_sorted (U rs : List ℝ) (hU : List.Sorted (· ≤ ·) U)
    (hUnd : U.Nodup) (hrs : List.Sorted (· ≤ ·) rs) (hrsnd : rs.Nodup)
    (hsub : ∀ d ∈ rs, d ∈ U) :
    U.filter (fun d => decide (d ∈ rs)) = rs := by
  refine List.eq_of_perm_of_sorted ?_ (hU.filter _) hrs
  refine (List.perm_ext_iff_of_nodup (List.Nodup.filter _ hUnd) hrsnd).mpr ?_
  intro d
  rw [List.mem_filter, decide_eq_true_eq]
  exact ⟨fun h => h.2, fun h => ⟨hsub d h, h⟩⟩

lemma map_dist_getD (rows : List Row) (j : ℕ) (hj : j < rows.length) :
    (rows.map fun r => r.2.2).getD j 0 = (rows.getD j (0, 0, 0)).2.2 := by
  rw [List.getD_eq_getElem _ _ (by simpa using hj), List.getD_eq_getElem _ _ hj,
    List.getElem_map]

lemma create_profile_polyline_resample (vs : List (ℝ × ℝ)) (M : ℕ)
    (interp : ℝ → ℝ × ℝ)
    (hnd : ((sort_values (cum_dist vs false)).map fun r => r.2.2).Nodup)
    (h4 : 4 ≤ (sort_values (cum_dist vs false)).length) :
    create_profile_polyline vs (some M) interp =
      ((index_union ((sort_values (cum_dist vs false)).map fun r => r.2.2)
          (linspace1
            (seriesMin ((sort_values (cum_dist vs false)).map fun r => r.2.2))
            (seriesMax ((sort_values (cum_dist vs false)).map fun r => r.2.2)) M)).map
        (reindex_row (sort_values (cum_dist vs false)) interp)).filter
        (fun r => decide (r.2.2 ∈ linspace1
            (seriesMin ((sort_values (cum_dist vs false)).map fun r => r.2.2))
            (seriesMax ((sort_values (cum_dist vs false)).map fun r => r.2.2)) M)) := by
  simp only [create_profile_polyline]
  rw [if_neg (not_not_intro hnd), if_neg ?hcond]
  case hcond =>
    intro hc
    exact absurd hc.2 (by omega)

lemma segLens_length (vs : List (ℝ × ℝ)) : (segLens vs).length = vs.length - 1 := by
  rw [segLens, List.length_map, List.length_zip, List.length_tail]
  exact min_eq_right (Nat.sub_le _ _)

lemma segLens_getD_pos (vs : List (ℝ × ℝ)) (j : ℕ) (hj : j < vs.length - 1)
    (hsep : ∀ pr ∈ vs.zip vs.tail, pr.1 ≠ pr.2) :
    0 < (segLens vs).getD j 0 := by
  have hlen : j < (segLens vs).length := by rw [segLens_length]; exact hj
  rw [List.getD_eq_getElem _ _ hlen]
  have hjz : j < (vs.zip vs.tail).length := by
    have := segLens_length vs
    rw [segLens, List.length_map] at this
    omega
  simp only [segLens, List.getElem_map]
  have hmem : (vs.zip vs.tail)[j] ∈ vs.zip vs.tail := List.getElem_mem _
  have hne := hsep _ hmem
  apply euclid_pos
  simp only [Prod.mk.eta]
  exact Ne.symm hne

lemma cumsum_dist_gt (l : List (ℝ × ℝ × ℝ)) (acc : ℝ)
    (h : ∀ r ∈ l, 0 < r.2.2) : ∀ r ∈ cumsum acc l, acc < r.2.2 := by
  induction l generalizing acc with
  | nil => intro r hr; simp [cumsum] at hr
  | cons a as ih =>
    intro r hr
    have ha : 0 < a.2.2 := h a (by simp)
    rcases List.mem_cons.mp hr with h0 | h1
    · subst h0; simpa using ha
    · have := ih (acc + a.2.2) (fun r hr => h r (List.mem_cons_of_mem _ hr)) r h1
      linarith

lemma cumsum_sorted_lt (l : List (ℝ × ℝ × ℝ)) (acc : ℝ)
    (h : ∀ r ∈ l, 0 < r.2.2) :
    List.Sorted (fun a b : Row => a.2.2 < b.2.2) (cumsum acc l) := by
  induction l generalizing acc with
  | nil => simp [cumsum]
  | cons a as ih =>
    have htail : ∀ r ∈ as, 0 < r.2.2 := fun r hr => h r (List.mem_cons_of_mem _ hr)
    refine List.sorted_cons.mpr ⟨?_, ih (acc + a.2.2) htail⟩
    intro b hb
    simpa using cumsum_dist_gt as (acc + a.2.2) htail b hb

lemma rel_dist_pos (vs : List (ℝ × ℝ))
    (hsep : ∀ pr ∈ vs.zip vs.tail, pr.1 ≠ pr.2) :
    ∀ r ∈ rel_dist vs false, 0 < r.2.2 := by
  intro r hr
  simp only [rel_dist, List.mem_map] at hr
  obtain ⟨pr, hpr, hpreq⟩ := hr
  subst hpreq
  have hne := hsep pr (by simpa using hpr)
  apply euclid_pos
  simp only [Prod.mk.eta]
  exact Ne.symm hne

lemma cum_dist_map_nodup (vs : List (ℝ × ℝ))
    (hsep : ∀ pr ∈ vs.zip vs.tail, pr.1 ≠ pr.2) :
    ((cum_dist vs false).map fun r => r.2.2).Nodup := by
  have hslt : List.Sorted (fun a b : Row => a.2.2 < b.2.2) (cum_dist vs false) :=
    cumsum_sorted_lt _ _ (rel_dist_pos vs hsep)
  have hp : List.Pairwise (fun x y : ℝ => x < y)
      ((cum_dist vs false).map fun r => r.2.2) :=
    List.pairwise_map.mpr hslt
  exact hp.imp fun hab => ne_of_lt hab

/-- C5 (amended): for a vertex path whose resampling branch is actually
taken (at least 4 path rows, i.e. at least 5 vertices, with consecutive
vertices distinct) and a requested count `M ≥ 2`, the output of
`create_profile` has exactly `M` rows, its dist values attain both the
minimum and the maximum dist of the un-resampled path, and every output
dist lies inside `[min, max]` (no extrapolation).  This holds for every
cubic interpolant `interp`. -/
theorem C5_resample (vs : List (ℝ × ℝ)) (M : ℕ) (interp : ℝ → ℝ × ℝ)
    (hM : 2 ≤ M) (h5 : 5 ≤ vs.length)
    (hsep : ∀ pr ∈ vs.zip vs.tail, pr.1 ≠ pr.2) :
    (create_profile_polyline vs (some M) interp).length = M ∧
    seriesMin ((cum_dist vs false).map fun r => r.2.2) ∈
      ((create_profile_polyline vs (some M) interp).map fun r => r.2.2) ∧
    seriesMax ((cum_dist vs false).map fun r => r.2.2) ∈
      ((create_profile_polyline vs (some M) interp).map fun r => r.2.2) ∧
    ∀ d ∈ ((create_profile_polyline vs (some M) interp).map fun r => r.2.2),
      seriesMin ((cum_dist vs false).map fun r => r.2.2) ≤ d ∧
      d ≤ seriesMax ((cum_dist vs false).map fun r => r.2.2) := by
  have hsortid := sort_values_cum_dist vs false
  have hclen : (cum_dist vs false).length = vs.length - 1 := cum_dist_length vs false
  have h4 : 4 ≤ (sort_values (cum_dist vs false)).length := by
    rw [hsortid, hclen]; omega
  have hndsorted : ((sort_values (cum_dist vs false)).map fun r => r.2.2).Nodup := by
    rw [hsortid]
    exact cum_dist_map_nodup vs hsep
  set dists := (cum_dist vs false).map (fun r => r.2.2) with hdists
  have hdlen : dists.length = vs.length - 1 := by
    rw [hdists, List.length_map, hclen]
  set a := seriesMin dists with ha
  set b := seriesMax dists with hb
  have hd0 : (0 : ℕ) < dists.length := by omega
  have hd1 : (1 : ℕ) < dists.length := by omega
  have hd0lt : dists.getD 0 0 < dists.getD 1 0 := by
    have h0 : (0 : ℕ) < (cum_dist vs false).length := by omega
    have h1 : (1 : ℕ) < (cum_dist vs false).length := by omega
    rw [hdists, map_dist_getD _ 0 h0, map_dist_getD _ 1 h1,
      cum_dist_getD vs 0 (by omega), cum_dist_getD vs 1 (by omega)]
    have hsl1 : 1 < (segLens vs).length := by rw [segLens_length]; omega
    have hpos1 : 0 < (segLens vs).getD 1 0 := segLens_getD_pos vs 1 (by omega) hsep
    have hts := List.sum_take_succ (segLens vs) 1 hsl1
    rw [List.getD_eq_getElem _ _ hsl1] at hpos1
    simp only [cumLen]
    rw [hts]
    have : (segLens vs).get ⟨1, hsl1⟩ = (segLens vs)[1] := rfl
    rw [this] at *
    linarith
  have hab : a < b := by
    have hmem0 : dists.getD 0 0 ∈ dists := by
      rw [List.getD_eq_getElem _ _ hd0]
      exact List.getElem_mem _
    have hmem1 : dists.getD 1 0 ∈ dists := by
      rw [List.getD_eq_getElem _ _ hd1]
      exact List.getElem_mem _
    have hle0 := seriesMin_le dists _ hmem0
    have hle1 := le_seriesMax dists _ hmem1
    rw [← ha] at hle0
    rw [← hb] at hle1
    linarith
  set rs := linspace1 a b M with hrs
  have hout := create_profile_polyline_resample vs M interp hndsorted h4
  rw [hsortid, ← hdists, ← ha, ← hb, ← hrs] at hout
  have hrssorted : List.Sorted (· ≤ ·) rs :=
    (linspace1_sorted_lt a b M hab).imp (fun h => le_of_lt h)
  have hrsnodup : rs.Nodup :=
    (linspace1_sorted_lt a b M hab).imp (fun h => ne_of_lt h)
  have hmapdist : ((create_profile_polyline vs (some M) interp).map fun r => r.2.2) = rs := by
    rw [hout, filter_map_dist]
    exact filter_eq_of_sorted _ _ (index_union_sorted _ _) (index_union_nodup _ _)
      hrssorted hrsnodup (fun d hd => (mem_index_union _ _ _).mpr (Or.inr hd))
  refine ⟨?_, ?_, ?_, ?_⟩
  · have hl := congrArg List.length hmapdist
    rw [List.length_map] at hl
    rw [hl, hrs, linspace1_length]
  · rw [hmapdist, hrs]
    exact linspace1_first a b M (by omega)
  · rw [hmapdist, hrs]
    exact linspace1_last a b M hM
  · intro d hd
    rw [hmapdist, hrs] at hd
    exact linspace1_bounds a b M (le_of_lt hab) d hd

/-- Five collinear unit-spaced vertices, a concrete resampling input. -/
noncomputable def fiveVertices : List (ℝ × ℝ) := [(0, 0), (1, 0), (2, 0), (3, 0), (4, 0)]

/-- A concrete interpolant for evaluation (its value is irrelevant here:
every resampled index value already exists in the path). -/
noncomputable def constInterp : ℝ → ℝ × ℝ := fun _ => (0, 0)

lemma fiveVertices_sep : ∀ pr ∈ fiveVertices.zip fiveVertices.tail, pr.1 ≠ pr.2 := by
  intro pr hpr
  simp only [fiveVertices, List.tail_cons, List.zip_cons_cons, List.zip_nil_right,
    List.mem_cons, List.not_mem_nil, or_false] at hpr
  rcases hpr with rfl | rfl | rfl | rfl <;>
    · intro h
      rw [Prod.ext_iff] at h
      norm_num at h

/-- Witness for `C5_resample` on the five-vertex path with `M = 7`. -/
theorem C5_witness :
    (2 ≤ 7 ∧ 5 ≤ fiveVertices.length ∧
      ∀ pr ∈ fiveVertices.zip fiveVertices.tail, pr.1 ≠ pr.2) ∧
    ((create_profile_polyline fiveVertices (some 7) constInterp).length = 7 ∧
    seriesMin ((cum_dist fiveVertices false).map fun r => r.2.2) ∈
      ((create_profile_polyline fiveVertices (some 7) constInterp).map fun r => r.2.2) ∧
    seriesMax ((cum_dist fiveVertices false).map fun r => r.2.2) ∈
      ((create_profile_polyline fiveVertices (some 7) constInterp).map fun r => r.2.2) ∧
    ∀ d ∈ ((create_profile_polyline fiveVertices (some 7) constInterp).map fun r => r.2.2),
      seriesMin ((cum_dist fiveVertices false).map fun r => r.2.2) ≤ d ∧
      d ≤ seriesMax ((cum_dist fiveVertices false).map fun r => r.2.2)) :=
  ⟨⟨by norm_num, by norm_num [fiveVertices], fiveVertices_sep⟩,
    C5_resample fiveVertices 7 constInterp (by norm_num)
      (by norm_num [fiveVertices]) fiveVertices_sep⟩

lemma cum_dist_fiveVertices :
    cum_dist fiveVertices false = [(1, 0, 1), (2, 0, 2), (3, 0, 3), (4, 0, 4)] := by
  have e1 : euclid 1 0 0 0 = 1 := euclid_eval (by norm_num) (by norm_num)
  have e2 : euclid 2 0 1 0 = 1 := euclid_eval (by norm_num) (by norm_num)
  have e3 : euclid 3 0 2 0 = 1 := euclid_eval (by norm_num) (by norm_num)
  have e4 : euclid 4 0 3 0 = 1 := euclid_eval (by norm_num) (by norm_num)
  simp [fiveVertices, cum_dist, rel_dist, cumsum, e1, e2, e3, e4]
  norm_num

lemma seriesMax_fiveVertices :
    seriesMax ((cum_dist fiveVertices false).map fun r => r.2.2) = 4 := by
  rw [cum_dist_fiveVertices]
  norm_num [seriesMax, List.max?, max_def]

lemma linspace1_one_four_one : linspace1 1 4 1 = [1] := by
  rw [linspace1, show List.range 1 = [0] from rfl]
  norm_num

lemma index_union_fiveVertices :
    index_union [1, 2, 3, 4] [(1 : ℝ)] = [1, 2, 3, 4] := by
  rw [index_union]
  have hfil : (([(1 : ℝ)] : List ℝ).filter fun d => decide (d ∉ ([1, 2, 3, 4] : List ℝ))) =
      [] := by
    simp
  rw [hfil, List.append_nil]
  have h1 : (1 : ℝ) ∉ ([2, 3, 4] : List ℝ) := by norm_num
  have h2 : (2 : ℝ) ∉ ([3, 4] : List ℝ) := by norm_num
  have h3 : (3 : ℝ) ∉ ([4] : List ℝ) := by norm_num
  have h4 : (4 : ℝ) ∉ ([] : List ℝ) := List.not_mem_nil 4
  rw [List.dedup_cons_of_not_mem h1, List.dedup_cons_of_not_mem h2,
    List.dedup_cons_of_not_mem h3, List.dedup_cons_of_not_mem h4, List.dedup_nil]
  exact List.Sorted.insertionSort_eq (by norm_num [List.sorted_cons])

lemma reindex_row_of_find (coords : List Row) (interp : ℝ → ℝ × ℝ) (d : ℝ)
    (r : Row) (h : coords.find? (fun r => decide (r.2.2 = d)) = some r) :
    reindex_row coords interp d = r := by
  unfold reindex_row
  rw [h]

lemma reindex_row_five_one :
    reindex_row [(1, 0, 1), (2, 0, 2), (3, 0, 3), (4, 0, 4)] constInterp 1 =
      ((1 : ℝ), (0 : ℝ), (1 : ℝ)) := by
  have hf : List.find? (fun r => decide (r.2.2 = (1 : ℝ)))
      ([(1, 0, 1), (2, 0, 2), (3, 0, 3), (4, 0, 4)] : List Row) = some (1, 0, 1) :=
    List.find?_cons_of_pos _ (by norm_num)
  exact reindex_row_of_find _ _ _ _ hf

lemma reindex_row_five_two :
    reindex_row [(1, 0, 1), (2, 0, 2), (3, 0, 3), (4, 0, 4)] constInterp 2 =
      ((2 : ℝ), (0 : ℝ), (2 : ℝ)) := by
  have hf : List.find? (fun r => decide (r.2.2 = (2 : ℝ)))
      ([(1, 0, 1), (2, 0, 2), (3, 0, 3), (4, 0, 4)] : List Row) = some (2, 0, 2) := by
    rw [List.find?_cons_of_neg _ (by norm_num), List.find?_cons_of_pos _ (by norm_num)]
  exact reindex_row_of_find _ _ _ _ hf

lemma reindex_row_five_three :
    reindex_row [(1, 0, 1), (2, 0, 2), (3, 0, 3), (4, 0, 4)] constInterp 3 =
      ((3 : ℝ), (0 : ℝ), (3 : ℝ)) := by
  have hf : List.find? (fun r => decide (r.2.2 = (3 : ℝ)))
      ([(1, 0, 1), (2, 0, 2), (3, 0, 3), (4, 0, 4)] : List Row) = some (3, 0, 3) := by
    rw [List.find?_cons_of_neg _ (by norm_num), List.find?_cons_of_neg _ (by norm_num),
      List.find?_cons_of_pos _ (by norm_num)]
  exact reindex_row_of_find _ _ _ _ hf

lemma reindex_row_five_four :
    reindex_row [(1, 0, 1), (2, 0, 2), (3, 0, 3), (4, 0, 4)] constInterp 4 =
      ((4 : ℝ), (0 : ℝ), (4 : ℝ)) := by
  have hf : List.find? (fun r => decide (r.2.2 = (4 : ℝ)))
      ([(1, 0, 1), (2, 0, 2), (3, 0, 3), (4, 0, 4)] : List Row) = some (4, 0, 4) := by
    rw [List.find?_cons_of_neg _ (by norm_num), List.find?_cons_of_neg _ (by norm_num),
      List.find?_cons_of_neg _ (by norm_num), List.find?_cons_of_pos _ (by norm_num)]
  exact reindex_row_of_find _ _ _ _ hf

lemma create_profile_polyline_five_one :
    create_profile_polyline fiveVertices (some 1) constInterp = [(1, 0, 1)] := by
  have h4 : 4 ≤ (sort_values (cum_dist fiveVertices false)).length := by
    rw [sort_values_cum_dist, cum_dist_fiveVertices]
    norm_num
  have hnd : ((sort_values (cum_dist fiveVertices false)).map fun r => r.2.2).Nodup := by
    rw [sort_values_cum_dist, cum_dist_fiveVertices]
    simp only [List.map_cons, List.map_nil]
    norm_num [List.nodup_cons]
  rw [create_profile_polyline_resample fiveVertices 1 constInterp hnd h4,
    sort_values_cum_dist, cum_dist_fiveVertices]
  simp only [List.map_cons, List.map_nil]
  have hmin : seriesMin ([1, 2, 3, 4] : List ℝ) = 1 := by
    norm_num [seriesMin, List.min?, min_def]
  have hmax : seriesMax ([1, 2, 3, 4] : List ℝ) = 4 := by
    norm_num [seriesMax, List.max?, max_def]
  simp only [hmin, hmax, linspace1_one_four_one, index_union_fiveVertices]
  simp only [List.map_cons, List.map_nil, reindex_row_five_one, reindex_row_five_two,
    reindex_row_five_three, reindex_row_five_four]
  simp only [List.filter_cons, List.filter_nil]
  norm_num

/-- C5 is false as universally stated: with the five-vertex path (resampling
is performed: 4 path rows) and requested count `M = 1`, the call returns the
single row at the minimum dist, so the output has the requested 1 row but
its dist values do not span `[min, max] = [1, 4]` of the un-resampled path:
the maximum 4 is not attained. -/
theorem C5_counterexample :
    ((create_profile_polyline fiveVertices (some 1) constInterp).map fun r => r.2.2) =
        [1] ∧
      seriesMax ((cum_dist fiveVertices false).map fun r => r.2.2) = 4 ∧
      (4 : ℝ) ∉ ([1] : List ℝ) := by
  refine ⟨?_, seriesMax_fiveVertices, by norm_num⟩
  rw [create_profile_polyline_five_one]
  norm_num

lemma index_union_exampleVertices :
    index_union [5, 10] [(5 : ℝ)] = [5, 10] := by
  rw [index_union]
  have hfil : (([(5 : ℝ)] : List ℝ).filter fun d => decide (d ∉ ([5, 10] : List ℝ))) =
      [] := by
    simp
  rw [hfil, List.append_nil]
  have h1 : (5 : ℝ) ∉ ([10] : List ℝ) := by norm_num
  have h2 : (10 : ℝ) ∉ ([] : List ℝ) := List.not_mem_nil 10
  rw [List.dedup_cons_of_not_mem h1, List.dedup_cons_of_not_mem h2, List.dedup_nil]
  exact List.Sorted.insertionSort_eq (by norm_num [List.sorted_cons])

lemma reindex_row_example_five :
    reindex_row [(3, 4, 5), (3, 9, 10)] constInterp 5 =
      ((3 : ℝ), (4 : ℝ), (5 : ℝ)) := by
  have hf : List.find? (fun r => decide (r.2.2 = (5 : ℝ)))
      ([(3, 4, 5), (3, 9, 10)] : List Row) = some (3, 4, 5) :=
    List.find?_cons_of_pos _ (by norm_num)
  exact reindex_row_of_find _ _ _ _ hf

lemma reindex_row_example_ten :
    reindex_row [(3, 4, 5), (3, 9, 10)] constInterp 10 =
      ((3 : ℝ), (9 : ℝ), (10 : ℝ)) := by
  have hf : List.find? (fun r => decide (r.2.2 = (10 : ℝ)))
      ([(3, 4, 5), (3, 9, 10)] : List Row) = some (3, 9, 10) := by
    rw [List.find?_cons_of_neg _ (by norm_num), List.find?_cons_of_pos _ (by norm_num)]
  exact reindex_row_of_find _ _ _ _ hf

lemma create_profile_polyline_example_one :
    create_profile_polyline exampleVertices (some 1) constInterp = [(3, 4, 5)] := by
  simp only [create_profile_polyline, sort_cum_exampleVertices,
    List.map_cons, List.map_nil]
  have hmin : seriesMin ([5, 10] : List ℝ) = 5 := by
    norm_num [seriesMin, List.min?, min_def]
  have hmax : seriesMax ([5, 10] : List ℝ) = 10 := by
    norm_num [seriesMax, List.max?, max_def]
  rw [if_neg (not_not_intro (by norm_num [List.nodup_cons] :
    ([5, 10] : List ℝ).Nodup))]
  simp only [hmin, hmax]
  have hrs : linspace1 5 10 1 = [5] := by
    rw [linspace1, show List.range 1 = [0] from rfl]
    norm_num
  simp only [hrs]
  have hcond : ¬((∃ d ∈ ([5] : List ℝ), d ∉ ([5, 10] : List ℝ)) ∧
      ([((3 : ℝ), (4 : ℝ), (5 : ℝ)), (3, 9, 10)] : List Row).length < 4) := by
    intro hc
    obtain ⟨⟨d, hd, hnotin⟩, _⟩ := hc
    rw [List.mem_singleton] at hd
    subst hd
    exact hnotin (by norm_num)
  rw [if_neg hcond]
  simp only [index_union_exampleVertices, List.map_cons, List.map_nil,
    reindex_row_example_five, reindex_row_example_ten]
  simp only [List.filter_cons, List.filter_nil]
  norm_num

/-- C6 is false on the code: for the 3-vertex example path and `num = 1`,
the single resampled value `5` already exists in the dist index, so the
reindex introduces no missing entries, `interpolate` short-circuits without
raising, and the `isin` filter truncates the profile to one row — the call
does not return the un-resampled 2-row path. -/
theorem C6_counterexample :
    exampleVertices.length < 4 ∧
      create_profile_polyline exampleVertices (some 1) constInterp = [(3, 4, 5)] ∧
      create_profile_polyline exampleVertices none constInterp =
        [(3, 4, 5), (3, 9, 10)] ∧
      ([((3 : ℝ), (4 : ℝ), (5 : ℝ))] : List Row) ≠ [(3, 4, 5), (3, 9, 10)] := by
  refine ⟨by norm_num [exampleVertices], create_profile_polyline_example_one, ?_,
    by simp⟩
  rw [create_profile_polyline_none, cum_dist_exampleVertices]

/-- A dataframe cell; `none` models a missing value (NaN from no-data).
Rational values keep the frame model decidable so concrete frames can be
evaluated by `decide`. -/
abbrev Cell : Type := Option ℚ

/-- A pandas dataframe: an ordered association list of column name to column
values; row order is the order inside each column list. -/
abbrev Frame : Type := List (String × List Cell)

/-- Column lookup `df[name]`: the first column with the given name. -/
def getCol (df : Frame) (name : String) : Option (List Cell) :=
  (df.find? fun c => c.1 == name).map fun c => c.2

/-- `df.drop(columns=name)`; when the column is absent this is the identity,
matching the `except KeyError: df1 = df.copy()` branch of `sample_grids`. -/
def dropCol (df : Frame) (name : String) : Frame :=
  df.filter fun c => !(c.1 == name)

/-- `sample_grids` from `profile.py`: drop any existing column named
`sampled_name`, sample the grid at every `(x, y)` point (`pygmt.grdtrack`,
modelled as an arbitrary function of the coordinates, `none` when a
coordinate is missing), and append the sampled values as a new column.  The
`x`/`y` columns must exist (otherwise the code raises `KeyError`, modelled
by `none`); the `reset_index`/`set_index` round-trip is the identity. -/
def sample_grids (df : Frame) (grid : ℚ → ℚ → Cell) (sampled_name : String) :
    Option Frame :=
  let df1 := dropCol df sampled_name
  match getCol df1 "x", getCol df1 "y" with
  | some xs, some ys =>
      some (df1 ++ [(sampled_name, (xs.zip ys).map fun p =>
        match p.1, p.2 with
        | some xv, some yv => grid xv yv
        | _, _ => none)])
  | _, _ => none

/-- `Series.fillna(other)`: each missing entry takes `other`'s value at the
same row. -/
def fillna (cur prev : List Cell) : List Cell :=
  (cur.zip prev).map fun p =>
    match p.1 with
    | some v => some v
    | none => p.2

/-- Assignment `df[name] = vals` on an existing column. -/
def setCol (df : Frame) (name : String) (vals : List Cell) : Frame :=
  df.map fun c => if c.1 == name then (name, vals) else c

/-- One loop iteration of `fill_nans`:
`df[j] = df[j].fillna(df[cols[i-1]])` for the pair `pr = (cols[i-1], cols[i])`. -/
def fillStep (acc : Frame) (pr : String × String) : Frame :=
  match getCol acc pr.2, getCol acc pr.1 with
  | some cur, some prev => setCol acc pr.2 (fillna cur prev)
  | _, _ => acc

/-- `fill_nans` from `profile.py`: `cols = df.columns[3:]`; for each column
after the first (left to right) fill its missing values from the column
immediately to its left.  The assignment is made on the updated frame, so a
later fill sees already-filled columns. -/
def fill_nans (df : Frame) : Frame :=
  let cols := (df.map fun c => c.1).drop 3
  (cols.zip cols.tail).foldl fillStep df

/-- The downward-fill cascade on the layer value columns: the first layer is
kept; each later layer is filled from its already-filled predecessor. -/
def fillLayers : List (List Cell) → List (List Cell)
  | [] => []
  | [l] => [l]
  | l1 :: l2 :: rest => l1 :: fillLayers (fillna l2 l1 :: rest)
termination_by l => l.length

/-- Python passes dataframes by reference; each `_call` wrapper pairs the
function result with the state of the caller's argument after the call.
`sample_grids` works on copies (`df.drop`/`.copy()`), and `shorten` copies
its selection before assigning, so their argument is unchanged; `fill_nans`
assigns `df[j] = ...` directly into its argument, so the argument ends up
equal to the returned frame. -/
def sample_grids_call (df : Frame) (grid : ℚ → ℚ → Cell) (name : String) :
    Option Frame × Frame := (sample_grids df grid name, df)

/-- `shorten` call wrapper: the input is copied, never mutated. -/
noncomputable def shorten_call (df : List Row) (max_dist min_dist : Option ℝ) :
    Option (List Row) × List Row := (shorten df max_dist min_dist, df)

/-- `fill_nans` call wrapper: the argument is assigned into, so its final
state is the returned frame itself. -/
def fill_nans_call (df : Frame) : Frame × Frame := (fill_nans df, fill_nans df)

/-- A small profile frame with one no-data value in its second layer. -/
def nanFrame : Frame :=
  [("x", [some 0]), ("y", [some 0]), ("dist", [some 0]),
   ("L1", [some 1]), ("L2", [none])]

/-- C9 is false on the code: `fill_nans` mutates the dataframe it is given
(it assigns `df[j] = df[j].fillna(...)` on the argument without copying), so
after a call on a frame with a no-data value, the argument object is no
longer equal to its original value. -/
theorem C9_counterexample : (fill_nans_call nanFrame).2 ≠ nanFrame := by decide

/-- C9 (amended): `sample_grids` and `shorten` do not mutate the dataframe
they are given — the argument is unchanged after the call — but `fill_nans`
mutates its argument in place: the argument's final state equals the
returned frame, which differs from the input whenever a no-data value is
filled (e.g. on `nanFrame`). -/
theorem C9_mutation :
    (∀ (df : Frame) (grid : ℚ → ℚ → Cell) (name : String),
      (sample_grids_call df grid name).2 = df) ∧
    (∀ (df : List Row) (mx mn : Option ℝ), (shorten_call df mx mn).2 = df) ∧
    (∀ df : Frame, (fill_nans_call df).2 = fill_nans df) ∧
    (fill_nans_call nanFrame).2 ≠ nanFrame :=
  ⟨fun _ _ _ => rfl, fun _ _ _ => rfl, fun _ => rfl, by decide⟩

lemma getCol_cons_self (c : String × List Cell) (l : Frame) :
    getCol (c :: l) c.1 = some c.2 := by
  rw [getCol, List.find?_cons_of_pos _ (by simp)]
  rfl

lemma getCol_cons_ne (c : String × List Cell) (l : Frame) (m : String)
    (h : c.1 ≠ m) : getCol (c :: l) m = getCol l m := by
  rw [getCol, List.find?_cons_of_neg _ (by simpa using h), getCol]

lemma getCol_append_single_ne (l : Frame) (nm : String) (v : List Cell)
    (c : String) (h : nm ≠ c) : getCol (l ++ [(nm, v)]) c = getCol l c := by
  rw [getCol, getCol, List.find?_append]
  have h2 : List.find? (fun col => col.1 == c) [(nm, v)] = none := by
    simp [h]
  rw [h2]
  cases l.find? fun col => col.1 == c <;> rfl

lemma getCol_dropCol_ne (df : Frame) (name c : String) (h : c ≠ name) :
    getCol (dropCol df name) c = getCol df c := by
  induction df with
  | nil => rfl
  | cons d l ih =>
    by_cases hd : d.1 = name
    · have hstep : dropCol (d :: l) name = dropCol l name := by
        rw [dropCol, List.filter_cons, if_neg (by simp [hd])]
        rfl
      rw [hstep, ih, getCol_cons_ne d l c (by rw [hd]; exact Ne.symm h)]
    · have hstep : dropCol (d :: l) name = d :: dropCol l name := by
        rw [dropCol, List.filter_cons, if_pos (by simp [hd])]
        rfl
      rw [hstep]
      by_cases hc : d.1 = c
      · rw [← hc, getCol_cons_self, getCol_cons_self]
      · rw [getCol_cons_ne d _ c hc, getCol_cons_ne d l c hc, ih]

lemma filter_dropCol (df : Frame) (name : String) :
    ((dropCol df name).filter fun c => c.1 == name) = [] := by
  rw [List.filter_eq_nil_iff]
  intro c hc
  have hc2 : c ∈ df.filter fun d => !(d.1 == name) := hc
  have hmem := (List.mem_filter.mp hc2).2
  simpa using hmem

lemma dropCol_idem_app (df : Frame) (name : String) :
    dropCol (dropCol df name) name = dropCol df name := by
  apply List.filter_eq_self.mpr
  intro c hc
  have hc2 : c ∈ df.filter fun d => !(d.1 == name) := hc
  exact (List.mem_filter.mp hc2).2

lemma sample_grids_eq_some (df : Frame) (grid : ℚ → ℚ → Cell) (name : String)
    (xs ys : List Cell) (hx : getCol (dropCol df name) "x" = some xs)
    (hy : getCol (dropCol df name) "y" = some ys) :
    sample_grids df grid name =
      some (dropCol df name ++ [(name, (xs.zip ys).map fun p =>
        match p.1, p.2 with
        | some xv, some yv => grid xv yv
        | _, _ => none)]) := by
  simp only [sample_grids]
  rw [hx, hy]

lemma sample_grids_some_inv (df : Frame) (grid : ℚ → ℚ → Cell) (name : String)
    (out : Frame) (h : sample_grids df grid name = some out) :
    ∃ xs ys, getCol (dropCol df name) "x" = some xs ∧
      getCol (dropCol df name) "y" = some ys ∧
      out = dropCol df name ++ [(name, (xs.zip ys).map fun p =>
        match p.1, p.2 with
        | some xv, some yv => grid xv yv
        | _, _ => none)] := by
  simp only [sample_grids] at h
  cases hgx : getCol (dropCol df name) "x" with
  | none =>
    cases hgy : getCol (dropCol df name) "y" with
    | none => rw [hgx, hgy] at h; exact Option.noConfusion h
    | some ys => rw [hgx, hgy] at h; exact Option.noConfusion h
  | some xs =>
    cases hgy : getCol (dropCol df name) "y" with
    | none => rw [hgx, hgy] at h; exact Option.noConfusion h
    | some ys =>
      rw [hgx, hgy] at h
      exact ⟨xs, ys, rfl, rfl, (Option.some.inj h).symm⟩

/-- C7: when `sample_grids` returns a frame, that frame agrees with the
input on every other column (the source's `assert_frame_equal` check), it
contains exactly one column with the target name (an existing one is
dropped and replaced, not duplicated), and re-sampling under the same name
returns the very same frame (idempotence). -/
theorem C7_sample_grids (df : Frame) (grid : ℚ → ℚ → Cell) (name : String)
    (out : Frame) (h : sample_grids df grid name = some out) :
    (∀ c, c ≠ name → getCol out c = getCol df c) ∧
    (out.filter fun col => col.1 == name).length = 1 ∧
    sample_grids out grid name = some out := by
  obtain ⟨xs, ys, hx, hy, hout⟩ := sample_grids_some_inv df grid name out h
  set vals := (xs.zip ys).map (fun p : Cell × Cell =>
    match p.1, p.2 with
    | some xv, some yv => grid xv yv
    | _, _ => none) with hvals
  subst hout
  refine ⟨?_, ?_, ?_⟩
  · intro c hc
    rw [getCol_append_single_ne _ _ _ _ (Ne.symm hc), getCol_dropCol_ne _ _ _ hc]
  · rw [List.filter_append, filter_dropCol]
    simp
  · have hdrop : dropCol (dropCol df name ++ [(name, vals)]) name = dropCol df name := by
      show ((dropCol df name ++ [(name, vals)]).filter fun c => !(c.1 == name)) =
        dropCol df name
      rw [List.filter_append]
      have h1 : ((dropCol df name).filter fun c => !(c.1 == name)) = dropCol df name :=
        dropCol_idem_app df name
      have h2 : (([(name, vals)] : Frame).filter fun c => !(c.1 == name)) = [] := by
        simp
      rw [h1, h2, List.append_nil]
    have hx2 : getCol (dropCol (dropCol df name ++ [(name, vals)]) name) "x" = some xs := by
      rw [hdrop]; exact hx
    have hy2 : getCol (dropCol (dropCol df name ++ [(name, vals)]) name) "y" = some ys := by
      rw [hdrop]; exact hy
    rw [sample_grids_eq_some _ grid name xs ys hx2 hy2, hdrop, ← hvals]

/-- A small concrete profile frame for grid-sampling evaluation. -/
def exFrame : Frame :=
  [("x", [some 0, some 1]), ("y", [some 2, some 3]), ("dist", [some 0, some 1])]

/-- The concrete grid returning the `x` coordinate, used for evaluation
(kept arithmetic-free so concrete frames evaluate by `decide`). -/
def exGrid : ℚ → ℚ → Cell := fun x _ => some x

/-- Witness for `C7_sample_grids` on `exFrame` with new column `"g"`. -/
theorem C7_witness :
    sample_grids exFrame exGrid "g" =
        some (exFrame ++ [("g", [some 0, some 1])]) ∧
      ((∀ c, c ≠ "g" →
        getCol (exFrame ++ [("g", [some 0, some 1])]) c = getCol exFrame c) ∧
      (((exFrame ++ [("g", [some 0, some 1])]) : Frame).filter fun col => col.1 == "g").length = 1 ∧
      sample_grids (exFrame ++ [("g", [some 0, some 1])]) exGrid "g" =
        some (exFrame ++ [("g", [some 0, some 1])])) := by
  have h : sample_grids exFrame exGrid "g" =
      some (exFrame ++ [("g", [some 0, some 1])]) := by decide
  exact ⟨h, C7_sample_grids exFrame exGrid "g" _ h⟩

lemma getCol_append_not_mem (P l : Frame) (m : String)
    (h : ∀ c ∈ P, c.1 ≠ m) : getCol (P ++ l) m = getCol l m := by
  induction P with
  | nil => rfl
  | cons d Ps ih =>
    rw [List.cons_append, getCol_cons_ne d _ m (h d (by simp))]
    exact ih fun c hc => h c (List.mem_cons_of_mem _ hc)

lemma fillStep_eq (acc : Frame) (pr : String × String) (cur prev : List Cell)
    (hc : getCol acc pr.2 = some cur) (hp : getCol acc pr.1 = some prev) :
    fillStep acc pr = setCol acc pr.2 (fillna cur prev) := by
  unfold fillStep
  rw [hc, hp]

lemma setCol_eq_self (l : Frame) (m : String) (v : List Cell)
    (h : ∀ c ∈ l, c.1 ≠ m) : setCol l m v = l := by
  induction l with
  | nil => rfl
  | cons d Ps ih =>
    have hd : ¬(d.1 == m) = true := by simpa using h d (by simp)
    have htl := ih fun c hc => h c (List.mem_cons_of_mem _ hc)
    rw [setCol] at htl ⊢
    rw [List.map_cons, if_neg hd, htl]

lemma setCol_append (P l : Frame) (m : String) (v : List Cell) :
    setCol (P ++ l) m v = setCol P m v ++ setCol l m v := by
  rw [setCol, setCol, setCol, List.map_append]

lemma fill_foldl (n : ℕ) : ∀ (P L : Frame), L.length = n →
    ((P ++ L).map fun c => c.1).Nodup →
    ((L.map fun c => c.1).zip ((L.map fun c => c.1).tail)).foldl fillStep (P ++ L) =
      P ++ (L.map fun c => c.1).zip (fillLayers (L.map fun c => c.2)) := by
  induction n with
  | zero =>
    intro P L hlen hnd
    have hn : L = [] := List.length_eq_zero.mp hlen
    subst hn
    simp [fillLayers]
  | succ n ih =>
    intro P L hlen hnd
    cases L with
    | nil => simp [fillLayers]
    | cons c1 L2 =>
      cases L2 with
      | nil =>
        simp only [List.map_cons, List.map_nil, List.tail_cons, List.zip_nil_right,
          List.foldl_nil, fillLayers, List.zip_cons_cons, List.zip_nil_left]
      | cons c2 rest =>
        have hnd' : (P.map (fun c => c.1) ++
            c1.1 :: c2.1 :: rest.map fun c => c.1).Nodup := by
          simpa using hnd
        rw [List.nodup_append] at hnd'
        obtain ⟨hndP, hndR, hdisj⟩ := hnd'
        have hPc1 : ∀ c ∈ P, c.1 ≠ c1.1 := by
          intro c hc hceq
          exact hdisj (List.mem_map_of_mem _ hc) (by rw [hceq]; simp)
        have hPc2 : ∀ c ∈ P, c.1 ≠ c2.1 := by
          intro c hc hceq
          exact hdisj (List.mem_map_of_mem _ hc) (by rw [hceq]; simp)
        have hc12 : c1.1 ≠ c2.1 := by
          intro hceq
          exact (List.nodup_cons.mp hndR).1 (by rw [hceq]; simp)
        have hrestc2 : ∀ c ∈ rest, c.1 ≠ c2.1 := by
          have h2 := (List.nodup_cons.mp hndR).2
          have h3 := (List.nodup_cons.mp h2).1
          intro c hc hceq
          exact h3 (by rw [← hceq]; exact List.mem_map_of_mem _ hc)
        have hget2 : getCol (P ++ c1 :: c2 :: rest) c2.1 = some c2.2 := by
          rw [getCol_append_not_mem _ _ _ hPc2, getCol_cons_ne _ _ _ hc12,
            getCol_cons_self]
        have hget1 : getCol (P ++ c1 :: c2 :: rest) c1.1 = some c1.2 := by
          rw [getCol_append_not_mem _ _ _ hPc1, getCol_cons_self]
        have hstep : fillStep (P ++ c1 :: c2 :: rest) (c1.1, c2.1) =
            P ++ c1 :: (c2.1, fillna c2.2 c1.2) :: rest := by
          rw [fillStep_eq _ (c1.1, c2.1) _ _ hget2 hget1, setCol_append,
            setCol_eq_self P _ _ hPc2]
          have hrest := setCol_eq_self rest c2.1 (fillna c2.2 c1.2) hrestc2
          rw [setCol] at hrest ⊢
          rw [List.map_cons, if_neg (by simpa using hc12), List.map_cons,
            if_pos (by simp), hrest]
        simp only [List.map_cons, List.tail_cons, List.zip_cons_cons, List.foldl_cons]
        rw [hstep]
        have hassoc : P ++ c1 :: (c2.1, fillna c2.2 c1.2) :: rest =
            (P ++ [c1]) ++ (c2.1, fillna c2.2 c1.2) :: rest := by
          simp
        rw [hassoc]
        have hlen' : ((c2.1, fillna c2.2 c1.2) :: rest).length = n := by
          simp only [List.length_cons] at hlen ⊢
          omega
        have hnd2 : (((P ++ [c1]) ++ (c2.1, fillna c2.2 c1.2) :: rest).map
            fun c => c.1).Nodup := by
          have heq : (((P ++ [c1]) ++ (c2.1, fillna c2.2 c1.2) :: rest).map
              fun c => c.1) = ((P ++ c1 :: c2 :: rest).map fun c => c.1) := by
            simp
          rw [heq]
          exact hnd
        have hIH := ih (P ++ [c1]) ((c2.1, fillna c2.2 c1.2) :: rest) hlen' hnd2
        simp only [List.map_cons, List.tail_cons] at hIH
        rw [hIH]
        simp [fillLayers]

/-- C8: for a profile frame `[x, y, dist] ++ layers` with distinct column
names, `fill_nans` keeps the first three columns and the first data layer
unchanged, and replaces each later layer by that layer filled from its
already-filled predecessor (`fillLayers`): missing values carry forward
through consecutive missing layers, and the first data layer is never
altered. -/
theorem C8_fill_nans (c0 c1 c2 : String × List Cell) (layers : Frame)
    (hnd : ((c0 :: c1 :: c2 :: layers).map fun c => c.1).Nodup) :
    fill_nans (c0 :: c1 :: c2 :: layers) =
      c0 :: c1 :: c2 ::
        (layers.map fun c => c.1).zip (fillLayers (layers.map fun c => c.2)) := by
  have hnd2 : (([c0, c1, c2] ++ layers).map fun c => c.1).Nodup := by simpa using hnd
  have h := fill_foldl layers.length [c0, c1, c2] layers rfl hnd2
  simp only [fill_nans]
  have hcols : ((c0 :: c1 :: c2 :: layers).map fun c => c.1).drop 3 =
      layers.map fun c => c.1 := by
    simp
  rw [hcols]
  exact h

/-- Witness for `C8_fill_nans` on a concrete frame with no-data entries in
the second and third layers: `L2`'s missing entry takes `L1`'s value, and
`L3`'s missing entries carry the already-filled `L2` forward. -/
theorem C8_witness :
    ((("x", [some 0, some 1]) :: ("y", [some 0, some 0]) ::
        ("dist", [some 0, some 1]) ::
        ([("L1", [some 1, some 2]), ("L2", [none, some 5]),
          ("L3", [none, none])] : Frame)).map fun c => c.1).Nodup ∧
      fill_nans (("x", [some 0, some 1]) :: ("y", [some 0, some 0]) ::
          ("dist", [some 0, some 1]) ::
          ([("L1", [some 1, some 2]), ("L2", [none, some 5]),
            ("L3", [none, none])] : Frame)) =
        ("x", [some 0, some 1]) :: ("y", [some 0, some 0]) ::
          ("dist", [some 0, some 1]) ::
          ((([("L1", [some 1, some 2]), ("L2", [none, some 5]),
              ("L3", [none, none])] : Frame).map fun c => c.1).zip
            (fillLayers (([("L1", [some 1, some 2]), ("L2", [none, some 5]),
              ("L3", [none, none])] : Frame).map fun c => c.2))) :=
  ⟨by decide,
    C8_fill_nans ("x", [some 0, some 1]) ("y", [some 0, some 0])
      ("dist", [some 0, some 1])
      [("L1", [some 1, some 2]), ("L2", [none, some 5]), ("L3", [none, none])]
      (by decide)⟩

end AntarcticPlots
